import Mathlib

/-!
Verification of the Strategic Account Mapper repository.

The repository ships two revisions of its org-chart component
(`src/components/OrgChart.tsx` and the unnamed revision `src/unnamed/part_000`),
two revisions of `runAnalysis` inside `src/App.tsx`, and one shared
`deleteStakeholder` / Gemini post-processing logic.  Every definition below is a
direct shallow embedding of the corresponding TypeScript: JavaScript string
truthiness is modelled explicitly (`""` is falsy), `Date.now()` is modelled as
an explicit `Nat` parameter, and JS `Set` membership is modelled as list
membership of the corresponding id list.
-/

namespace AccountMapper

/-- `src/types.ts` `OrgNode`.  Fields that can be absent at runtime
(`managerId`, `department`, `roleDescription`, `alignmentRisk` on the pushed
virtual-root literal) are `Option`s.  Enum-typed fields are plain strings, as
they are plain strings at the JS runtime.  The field defaults are only a
convenience for building concrete test inputs. -/
structure OrgNode where
  id : String
  name : String := ""
  title : String := ""
  managerId : Option String := none
  department : Option String := none
  roleDescription : Option String := none
  buyingRole : String := "Unknown"
  strategicAction : String := ""
  powerLevel : String := "Low"
  stance : String := "Unknown"
  alignmentRisk : Option String := none
  seniorityRank : Int := 1
deriving Repr, DecidableEq

/-- `src/types.ts` `DepartmentSummary` (numeric fields modelled as `Int`). -/
structure DepartmentSummary where
  name : String
  focus : String
  keyStakeholderCount : Int
  alignmentScore : Int
deriving Repr, DecidableEq

/-- `src/types.ts` `AccountAnalysis`. -/
structure AccountAnalysis where
  accountName : String := ""
  executiveSummary : String := ""
  criticalAlignmentGaps : List String := []
  strategicWins : List String := []
  contacts : List OrgNode := []
  departmentSummaries : Option (List DepartmentSummary) := none
deriving Repr, DecidableEq

/-- JS truthiness of a nullable string: `null`/`undefined` and `""` are falsy. -/
def optTruthy : Option String → Bool
  | none => false
  | some s => s ≠ ""

/-- The JS expression `o || null` on a nullable string `o`. -/
def jsOrNull (o : Option String) : Option String :=
  if optTruthy o then o else none

/-- The JS expression `r || 10` used by the sibling comparator
`(a.data.seniorityRank || 10) - (b.data.seniorityRank || 10)`:
a zero rank is falsy and is replaced by 10. -/
def jsRank (r : Int) : Int :=
  if r = 0 then 10 else r

/-- The department filter applied in both org-chart revisions:
`if (filterDepartment) contacts = contacts.filter(c => c.department === filterDepartment)`.
The guard is JS truthiness, so a `null` or empty-string filter leaves the list
unfiltered. -/
def applyFilter (filterDepartment : Option String) (contacts : List OrgNode) :
    List OrgNode :=
  if optTruthy filterDepartment then
    contacts.filter (fun c => c.department == filterDepartment)
  else
    contacts

namespace GeminiService

/-- `src/services/geminiService.ts` (both revisions, identical logic): the
post-processing applied to the parsed extraction result,
`managerId: (c.managerId && validIds.has(c.managerId) && c.managerId !== c.id) ? c.managerId : null`
where `validIds = new Set(parsed.contacts.map(c => c.id))`. -/
def normalizeOne (validIds : List String) (c : OrgNode) : OrgNode :=
  { c with managerId :=
      match c.managerId with
      | some m => if m ≠ "" && validIds.contains m && m != c.id then some m else none
      | none => none }

/-- The full rewrite `parsed.contacts = parsed.contacts.map(...)` with
`validIds = new Set(parsed.contacts.map(c => c.id))`. -/
def normalizeContacts (contacts : List OrgNode) : List OrgNode :=
  contacts.map (normalizeOne (contacts.map (fun c => c.id)))

end GeminiService

namespace OrgChartTsx

/-- `src/components/OrgChart.tsx` line 60: the fixed virtual-root identifier. -/
def VIRTUAL_ROOT_ID : String := "__ORG_ROOT__"

/-- `src/components/OrgChart.tsx` lines 63-66: the manager-reference rewrite
`managerId: (c.managerId && validIds.has(c.managerId)) ? c.managerId : VIRTUAL_ROOT_ID`.
Note: this revision has no self-loop guard and no duplicate-id removal;
`validIds` is the id set of the (filtered) contact list. -/
def resolveManager (validIds : List String) (c : OrgNode) : String :=
  match c.managerId with
  | some m => if m ≠ "" && validIds.contains m then m else VIRTUAL_ROOT_ID
  | none => VIRTUAL_ROOT_ID

/-- The virtual-root node pushed at `src/components/OrgChart.tsx` lines 68-79. -/
def virtualRootNode (accountName : String) : OrgNode :=
  { id := VIRTUAL_ROOT_ID
    name := accountName
    title := "Account HQ"
    managerId := none
    department := some "Core"
    stance := "Neutral"
    powerLevel := "Low"
    buyingRole := "Unknown"
    seniorityRank := 0
    strategicAction := "" }

/-- `src/components/OrgChart.tsx` lines 61-79: the working set handed to
`d3.stratify` — every (filtered) contact with its manager reference rewritten,
followed by the pushed virtual root.  No deduplication is performed. -/
def forestData (accountName : String) (contacts : List OrgNode) : List OrgNode :=
  contacts.map (fun c =>
    { c with managerId := some (resolveManager (contacts.map (fun d => d.id)) c) })
  ++ [virtualRootNode accountName]

end OrgChartTsx

namespace Part000

/-- `src/unnamed/part_000` line 48: the time-seeded virtual-root identifier
`__ROOT_${Date.now()}__`, with `Date.now()` as an explicit parameter. -/
def virtualRootId (now : Nat) : String :=
  "__ROOT_" ++ toString now ++ "__"

/-- Worker for the first-occurrence deduplication loop of
`src/unnamed/part_000` lines 49-58; `seen` is the growing `validIds` set. -/
def dedupById : List OrgNode → List String → List OrgNode
  | [], _ => []
  | c :: rest, seen =>
    if seen.contains c.id then dedupById rest seen
    else c :: dedupById rest (c.id :: seen)

/-- `src/unnamed/part_000` lines 52-58: duplicate ids are dropped, the first
occurrence is kept in input order. -/
def sanitizedContacts (contacts : List OrgNode) : List OrgNode :=
  dedupById contacts []

/-- The contents of the `validIds` set after the dedup loop: exactly the ids of
the surviving contacts (as a set this equals the ids of all input contacts). -/
def validIds (contacts : List OrgNode) : List String :=
  (sanitizedContacts contacts).map (fun c => c.id)

/-- `src/unnamed/part_000` lines 60-63: the manager-reference rewrite
`managerId: (c.managerId && validIds.has(c.managerId) && c.managerId !== c.id) ? c.managerId : VIRTUAL_ROOT_ID`.
This revision does reject direct self-loops. -/
def resolveManager (now : Nat) (ids : List String) (c : OrgNode) : String :=
  match c.managerId with
  | some m => if m ≠ "" && ids.contains m && m != c.id then m else virtualRootId now
  | none => virtualRootId now

/-- The virtual-root node pushed at `src/unnamed/part_000` lines 65-76. -/
def virtualRootNode (now : Nat) (accountName : String) : OrgNode :=
  { id := virtualRootId now
    name := accountName
    title := "Account HQ"
    managerId := none
    department := some "Core"
    stance := "Neutral"
    powerLevel := "Low"
    buyingRole := "Unknown"
    seniorityRank := 0
    strategicAction := "Centralized account oversight" }

/-- `src/unnamed/part_000` lines 49-76: the working set handed to
`d3.stratify` — deduplicated contacts with rewritten manager references,
followed by the pushed virtual root. -/
def forestData (now : Nat) (accountName : String) (contacts : List OrgNode) :
    List OrgNode :=
  (sanitizedContacts contacts).map (fun c =>
    { c with managerId := some (resolveManager now (validIds contacts) c) })
  ++ [virtualRootNode now accountName]

end Part000

/-- Sibling comparison used by `root.sort((a, b) => (a.data.seniorityRank || 10) - (b.data.seniorityRank || 10))`
in both org-chart revisions: ascending in the JS-coerced rank. -/
def rankLE (a b : OrgNode) : Prop :=
  jsRank a.seniorityRank ≤ jsRank b.seniorityRank

instance : DecidableRel rankLE := fun a b =>
  inferInstanceAs (Decidable (jsRank a.seniorityRank ≤ jsRank b.seniorityRank))

/-- One insertion step of the stable sibling sort: the new element is placed
before the first existing element it compares `≤` to, so earlier input elements
stay ahead of equal-ranked later ones (JS `Array.prototype.sort` is stable). -/
def insertByRank (c : OrgNode) : List OrgNode → List OrgNode
  | [] => [c]
  | d :: ds =>
    if jsRank c.seniorityRank ≤ jsRank d.seniorityRank then c :: d :: ds
    else d :: insertByRank c ds

/-- Stable sort of a sibling list by the comparator of `root.sort`
(`src/components/OrgChart.tsx` line 84 / `src/unnamed/part_000` line 81). -/
def sortByRank : List OrgNode → List OrgNode
  | [] => []
  | c :: cs => insertByRank c (sortByRank cs)

/-- The ordered child list of the node with id `p` in the built tree:
`d3.stratify` collects children in working-set order
(`parentId(d => d.managerId || null)`), then `root.sort` orders every sibling
list by the rank comparator. -/
def childrenOf (forest : List OrgNode) (p : String) : List OrgNode :=
  sortByRank (forest.filter (fun c => c.managerId == some p))

/-- The resolved parent of the node with id `x` in the working set: the
`managerId` of the first node carrying that id (`d3.stratify` keys nodes by
id). -/
def parentOf (forest : List OrgNode) (x : String) : Option String :=
  match forest.find? (fun c => c.id == x) with
  | some c => c.managerId
  | none => none

/-- `reachesRootIn forest root k x`: following resolved-parent links from the
node with id `x` arrives at `root` within at most `k` steps. -/
def reachesRootIn (forest : List OrgNode) (root : String) : Nat → String → Bool
  | 0, x => x == root
  | k + 1, x =>
    x == root ||
      match parentOf forest x with
      | some p => reachesRootIn forest root k p
      | none => false

namespace AppTsx

/-- `src/App.tsx` lines 78-95 (identically lines 315-341 in the second
revision): `deleteStakeholder`.  A missing target is a silent no-op; otherwise
the target is removed and each direct report is re-parented to
`target.managerId || null`. -/
def deleteStakeholder (a : AccountAnalysis) (i : String) : AccountAnalysis :=
  match a.contacts.find? (fun c => c.id == i) with
  | none => a
  | some target =>
    { a with contacts :=
        (a.contacts.filter (fun c => !(c.id == i))).map (fun c =>
          if c.managerId == some i then { c with managerId := jsOrNull target.managerId }
          else c) }

/-- The error message thrown by the first `runAnalysis` revision
(`src/App.tsx` line 64) when the extraction collaborator returns no contacts. -/
def noStakeholdersMsg : String :=
  "No stakeholders identified. Try a document with more explicit organizational data."

/-- The analysis/error state transition of the first `runAnalysis` revision
(`src/App.tsx` lines 42-76): the outcome of `analyzeAccountDocument` either
fails (caught, error recorded, stored analysis untouched), returns zero
contacts (throw at line 64, same handling), or replaces the stored analysis.
Returns the new stored analysis and the surfaced error. -/
def runAnalysisV1 (prev : Option AccountAnalysis)
    (result : Except String AccountAnalysis) :
    Option AccountAnalysis × Option String :=
  match result with
  | .error e => (prev, some e)
  | .ok r => if r.contacts.isEmpty then (prev, some noStakeholdersMsg)
             else (some r, none)

/-- The analysis/error state transition of the second `runAnalysis` revision
(`src/App.tsx` lines 295-313): no zero-contact check — any successful
extraction result replaces the stored analysis. -/
def runAnalysisV2 (prev : Option AccountAnalysis)
    (result : Except String AccountAnalysis) :
    Option AccountAnalysis × Option String :=
  match result with
  | .error e => (prev, some e)
  | .ok r => (some r, none)

end AppTsx

/-! ### Shared lemmas about the sibling sort -/

theorem mem_insertByRank {x c : OrgNode} {l : List OrgNode} :
    x ∈ insertByRank c l ↔ x = c ∨ x ∈ l := by
  induction l with
  | nil => simp [insertByRank]
  | cons d ds ih =>
    rw [insertByRank]
    split
    · simp
    · rw [List.mem_cons, List.mem_cons, ih]
      tauto

theorem mem_sortByRank {x : OrgNode} {l : List OrgNode} :
    x ∈ sortByRank l ↔ x ∈ l := by
  induction l with
  | nil => simp [sortByRank]
  | cons c cs ih => rw [sortByRank, mem_insertByRank, List.mem_cons, ih]

theorem pairwise_insertByRank {c : OrgNode} {l : List OrgNode}
    (h : l.Pairwise rankLE) : (insertByRank c l).Pairwise rankLE := by
  induction l with
  | nil => simp [insertByRank]
  | cons d ds ih =>
    rw [List.pairwise_cons] at h
    rw [insertByRank]
    split
    · rename_i hcd
      refine List.pairwise_cons.2 ⟨?_, List.pairwise_cons.2 ⟨h.1, h.2⟩⟩
      intro e he
      rcases List.mem_cons.1 he with rfl | he
      · exact hcd
      · exact le_trans hcd (h.1 e he)
    · rename_i hcd
      refine List.pairwise_cons.2 ⟨?_, ih h.2⟩
      intro e he
      rcases mem_insertByRank.1 he with rfl | he
      · exact le_of_not_le hcd
      · exact h.1 e he

theorem pairwise_sortByRank (l : List OrgNode) : (sortByRank l).Pairwise rankLE := by
  induction l with
  | nil => simp [sortByRank]
  | cons c cs ih => exact pairwise_insertByRank ih

theorem filter_insertByRank (k : Int) (c : OrgNode) (l : List OrgNode) :
    (insertByRank c l).filter (fun x => jsRank x.seniorityRank == k)
      = if jsRank c.seniorityRank == k
        then c :: l.filter (fun x => jsRank x.seniorityRank == k)
        else l.filter (fun x => jsRank x.seniorityRank == k) := by
  induction l with
  | nil => rw [insertByRank, List.filter_cons]
  | cons d ds ih =>
    rw [insertByRank]
    split
    · rename_i hcd
      rw [List.filter_cons]
    · rename_i hcd
      have hdc : jsRank d.seniorityRank < jsRank c.seniorityRank := lt_of_not_le hcd
      rw [List.filter_cons, List.filter_cons (x := d), ih]
      by_cases hpc : jsRank c.seniorityRank = k
      · have hpd : ¬ jsRank d.seniorityRank = k := by
          intro hk
          exact absurd hpc (by rw [← hk]; exact ne_of_gt hdc)
        simp [hpc, hpd]
      · by_cases hpd : jsRank d.seniorityRank = k <;> simp [hpc, hpd]

theorem filter_sortByRank (k : Int) (l : List OrgNode) :
    (sortByRank l).filter (fun x => jsRank x.seniorityRank == k)
      = l.filter (fun x => jsRank x.seniorityRank == k) := by
  induction l with
  | nil => rfl
  | cons c cs ih =>
    rw [sortByRank, filter_insertByRank, List.filter_cons, ih]

/-! ### Shared lemmas about the first-occurrence deduplication -/

theorem dedupById_sublist (cs : List OrgNode) :
    ∀ seen, (Part000.dedupById cs seen).Sublist cs := by
  induction cs with
  | nil => intro seen; rw [Part000.dedupById]
  | cons c rest ih =>
    intro seen
    rw [Part000.dedupById]
    split
    · exact (ih seen).cons c
    · exact (ih (c.id :: seen)).cons₂ c

theorem dedupById_ids_nodup (cs : List OrgNode) :
    ∀ seen, ((Part000.dedupById cs seen).map (fun c => c.id)).Nodup
      ∧ ∀ x ∈ (Part000.dedupById cs seen).map (fun c => c.id), x ∉ seen := by
  induction cs with
  | nil => intro seen; simp [Part000.dedupById]
  | cons c rest ih =>
    intro seen
    rw [Part000.dedupById]
    split
    · exact ih seen
    · rename_i hc
      have hcseen : c.id ∉ seen := by
        intro hmem
        exact absurd (by simpa using hmem) (by simpa using hc)
      constructor
      · rw [List.map_cons, List.nodup_cons]
        refine ⟨?_, (ih (c.id :: seen)).1⟩
        intro hmem
        exact absurd (List.mem_cons_self c.id seen) ((ih (c.id :: seen)).2 c.id hmem)
      · intro x hx
        rw [List.map_cons, List.mem_cons] at hx
        rcases hx with rfl | hx
        · exact hcseen
        · intro hxseen
          exact (ih (c.id :: seen)).2 x hx (List.mem_cons_of_mem _ hxseen)

theorem dedupById_mem_ids (cs : List OrgNode) :
    ∀ seen, ∀ x ∈ cs.map (fun c => c.id),
      x ∈ seen ∨ x ∈ (Part000.dedupById cs seen).map (fun c => c.id) := by
  induction cs with
  | nil => intro seen x hx; cases hx
  | cons c rest ih =>
    intro seen x hx
    rw [List.map_cons, List.mem_cons] at hx
    rw [Part000.dedupById]
    split
    · rename_i hc
      rcases hx with rfl | hx
      · exact Or.inl (by simpa using hc)
      · exact ih seen x hx
    · rcases hx with rfl | hx
      · exact Or.inr (by simp)
      · rcases ih (c.id :: seen) x hx with hseen | hded
        · rcases List.mem_cons.1 hseen with rfl | hseen
          · exact Or.inr (by simp)
          · exact Or.inl hseen
        · exact Or.inr (by rw [List.map_cons, List.mem_cons]; exact Or.inr hded)

theorem dedupById_find? (cs : List OrgNode) :
    ∀ seen (x : String), x ∉ seen →
      (Part000.dedupById cs seen).find? (fun c => c.id == x)
        = cs.find? (fun c => c.id == x) := by
  induction cs with
  | nil => intros; rfl
  | cons c rest ih =>
    intro seen x hx
    rw [Part000.dedupById]
    split
    · rename_i hc
      have hne : ¬ (c.id == x) = true := by
        intro hb
        exact hx (by rw [← eq_of_beq hb]; simpa using hc)
      rw [@List.find?_cons_of_neg _ (fun d => d.id == x) c rest hne]
      exact ih seen x hx
    · rename_i hc
      by_cases hb : (c.id == x) = true
      · rw [@List.find?_cons_of_pos _ (fun d => d.id == x) c
            (Part000.dedupById rest (c.id :: seen)) hb,
          @List.find?_cons_of_pos _ (fun d => d.id == x) c rest hb]
      · rw [@List.find?_cons_of_neg _ (fun d => d.id == x) c
            (Part000.dedupById rest (c.id :: seen)) hb,
          @List.find?_cons_of_neg _ (fun d => d.id == x) c rest hb]
        refine ih (c.id :: seen) x ?_
        intro hmem
        rcases List.mem_cons.1 hmem with rfl | hmem
        · exact hb (by simp)
        · exact hx hmem

theorem sanitizedContacts_ids_nodup (cs : List OrgNode) :
    ((Part000.sanitizedContacts cs).map (fun c => c.id)).Nodup :=
  (dedupById_ids_nodup cs []).1

theorem sanitizedContacts_sublist (cs : List OrgNode) :
    (Part000.sanitizedContacts cs).Sublist cs :=
  dedupById_sublist cs []

theorem mem_validIds (cs : List OrgNode) (x : String) :
    x ∈ Part000.validIds cs ↔ x ∈ cs.map (fun c => c.id) := by
  constructor
  · intro hx
    have hx2 : x ∈ (Part000.sanitizedContacts cs).map (fun c => c.id) := hx
    exact List.Sublist.mem hx2 ((sanitizedContacts_sublist cs).map (fun c => c.id))
  · intro hx
    rcases dedupById_mem_ids cs [] x hx with h | h
    · cases h
    · exact h

/-! ### Shared lemmas about node lookup and parent chains -/

theorem find?_map_of_nodup (g : OrgNode → OrgNode) (hg : ∀ c, (g c).id = c.id) :
    ∀ (l : List OrgNode), ((l.map (fun c => c.id)).Nodup) →
      ∀ c ∈ l, (l.map g).find? (fun d => d.id == c.id) = some (g c) := by
  intro l
  induction l with
  | nil => intro _ c hc; cases hc
  | cons d ds ih =>
    intro hnd c hc
    rw [List.map_cons, List.nodup_cons] at hnd
    rcases List.mem_cons.1 hc with rfl | hc
    · rw [List.map_cons]
      exact List.find?_cons_of_pos _ (by rw [hg]; simp)
    · have hne : ¬ ((g d).id == c.id) = true := by
        intro hb
        refine hnd.1 ?_
        rw [← hg d, eq_of_beq hb]
        exact List.mem_map.2 ⟨c, hc, rfl⟩
      rw [List.map_cons,
        @List.find?_cons_of_neg _ (fun e => e.id == c.id) (g d) (ds.map g) hne]
      exact ih hnd.2 c hc

theorem reachesRootIn_root (forest : List OrgNode) (r : String) :
    ∀ k, reachesRootIn forest r k r = true := by
  intro k
  cases k with
  | zero => simp [reachesRootIn]
  | succ k => simp [reachesRootIn]

theorem reachesRootIn_mono (forest : List OrgNode) (r : String) :
    ∀ k x, reachesRootIn forest r k x = true →
      reachesRootIn forest r (k + 1) x = true := by
  intro k
  induction k with
  | zero =>
    intro x h
    rw [reachesRootIn] at h
    rw [reachesRootIn, h, Bool.true_or]
  | succ k ih =>
    intro x h
    rw [reachesRootIn] at h
    rw [reachesRootIn]
    rw [Bool.or_eq_true] at h
    rcases h with hx | hrest
    · rw [hx, Bool.true_or]
    · cases hp : parentOf forest x with
      | none => rw [hp] at hrest; simp at hrest
      | some p =>
        rw [hp] at hrest
        have h2 : reachesRootIn forest r k p = true := hrest
        show (x == r || reachesRootIn forest r (k + 1) p) = true
        rw [ih p h2, Bool.or_true]

theorem reachesRootIn_le (forest : List OrgNode) (r : String) {k k' : Nat}
    (h : k ≤ k') :
    ∀ x, reachesRootIn forest r k x = true →
      reachesRootIn forest r k' x = true := by
  induction h with
  | refl => intro x hx; exact hx
  | step _ ih =>
    intro x hx
    exact reachesRootIn_mono forest r _ x (ih x hx)

/-! ### Further shared helper lemmas -/

theorem jsOrNull_of_ne_empty {o : Option String} (h : o ≠ some "") :
    jsOrNull o = o := by
  cases o with
  | none => rfl
  | some s =>
    rw [jsOrNull, if_pos]
    show (s ≠ "" : Bool) = true
    simp only [decide_eq_true_eq, ne_eq]
    intro hs
    exact h (by rw [hs])

theorem jsRank_of_pos {r : Int} (h : 1 ≤ r) : jsRank r = r := by
  rw [jsRank, if_neg]
  omega

theorem normalize_map_id (cs : List OrgNode) :
    (GeminiService.normalizeContacts cs).map (fun c => c.id)
      = cs.map (fun c => c.id) := by
  simp only [GeminiService.normalizeContacts]
  rw [List.map_map]
  rfl

theorem normalizeOne_managerId (ids : List String) (c : OrgNode) :
    (GeminiService.normalizeOne ids c).managerId = none ∨
      ∃ m, (GeminiService.normalizeOne ids c).managerId = some m
        ∧ m ≠ c.id ∧ m ∈ ids := by
  cases hm : c.managerId with
  | none =>
    left
    show (match c.managerId with
          | some m => if m ≠ "" && ids.contains m && m != c.id then some m else none
          | none => none) = none
    rw [hm]
  | some m =>
    by_cases hcond : (m ≠ "" && ids.contains m && m != c.id) = true
    · right
      refine ⟨m, ?_, ?_, ?_⟩
      · show (match c.managerId with
              | some m => if m ≠ "" && ids.contains m && m != c.id then some m else none
              | none => none) = some m
        rw [hm]
        exact if_pos hcond
      · rw [Bool.and_eq_true] at hcond
        simpa using hcond.2
      · rw [Bool.and_eq_true] at hcond
        rw [Bool.and_eq_true] at hcond
        simpa using hcond.1.2
    · left
      show (match c.managerId with
            | some m => if m ≠ "" && ids.contains m && m != c.id then some m else none
            | none => none) = none
      rw [hm]
      exact if_neg hcond

/-! ### Claim theorems -/

/-- C6: `deleteStakeholder` with an id that is not the id of any contact in the
Analysis is a silent no-op: no error is raised and the Analysis — its contact
collection included — is returned unchanged (`src/App.tsx` lines 80-83). -/
theorem delete_missing_noop (a : AccountAnalysis) (i : String)
    (h : ∀ c ∈ a.contacts, c.id ≠ i) :
    AppTsx.deleteStakeholder a i = a := by
  have hfind : a.contacts.find? (fun c => c.id == i) = none :=
    List.find?_eq_none.2 (fun c hc hb => h c hc (eq_of_beq hb))
  rw [AppTsx.deleteStakeholder, hfind]

/-- Witness for `delete_missing_noop` at a concrete Analysis and missing id. -/
theorem delete_missing_noop_witness :
    AppTsx.deleteStakeholder
        { contacts := [{ id := "p" }, { id := "q", managerId := some "p" }] } "zz"
      = { contacts := [{ id := "p" }, { id := "q", managerId := some "p" }] } :=
  delete_missing_noop _ "zz" (by decide)

/-- C10: every contact produced by the extraction boundary's post-processing
(`src/services/geminiService.ts` lines 76-85 resp. 163-172) has a `managerId`
that is `null`, or is the id of some contact of the same returned list and is
distinct from the contact's own id. -/
theorem extraction_managerIds_valid (cs : List OrgNode) :
    ∀ c ∈ GeminiService.normalizeContacts cs,
      c.managerId = none ∨
        ∃ m, c.managerId = some m ∧ m ≠ c.id ∧
          m ∈ (GeminiService.normalizeContacts cs).map (fun d => d.id) := by
  intro c hc
  simp only [GeminiService.normalizeContacts] at hc
  rcases List.mem_map.1 hc with ⟨c0, hc0, rfl⟩
  rcases normalizeOne_managerId (cs.map (fun c => c.id)) c0 with hnone | ⟨m, hsome, hne, hmem⟩
  · exact Or.inl hnone
  · refine Or.inr ⟨m, hsome, ?_, ?_⟩
    · exact hne
    · rw [normalize_map_id]
      exact hmem

/-- Witness for `extraction_managerIds_valid` at a concrete extraction
result. -/
theorem extraction_managerIds_valid_witness :
    ({ id := "b", managerId := some "a" } : OrgNode).managerId = none ∨
      ∃ m, ({ id := "b", managerId := some "a" } : OrgNode).managerId = some m
        ∧ m ≠ ({ id := "b", managerId := some "a" } : OrgNode).id
        ∧ m ∈ (GeminiService.normalizeContacts
            [{ id := "a" }, { id := "b", managerId := some "a" }]).map
              (fun d => d.id) :=
  extraction_managerIds_valid [{ id := "a" }, { id := "b", managerId := some "a" }]
    { id := "b", managerId := some "a" } (by decide)

/-- C2: deleting a present id removes the target, rewrites the `managerId` of
every direct report of the deleted contact to the target's former `managerId`,
and leaves every other contact unchanged (`src/App.tsx` lines 78-95 resp.
315-341); in particular `Delete("q")` on the p/q/r example yields exactly
`[p, r bridged to p]`.  The hypothesis `t.managerId ≠ some ""` records that an
empty-string manager reference is falsy in JS (`target.managerId || null`) and
would be rewritten to `null` instead of kept verbatim. -/
theorem delete_bridges (a : AccountAnalysis) (i : String) (t : OrgNode)
    (hfind : a.contacts.find? (fun c => c.id == i) = some t)
    (hmgr : t.managerId ≠ some "") :
    (AppTsx.deleteStakeholder a i).contacts
        = (a.contacts.filter (fun c => !(c.id == i))).map (fun c =>
            if c.managerId == some i then { c with managerId := t.managerId }
            else c)
      ∧ (∀ c ∈ (AppTsx.deleteStakeholder a i).contacts, c.id ≠ i)
      ∧ AppTsx.deleteStakeholder
            { contacts := [{ id := "p" }, { id := "q", managerId := some "p" },
                           { id := "r", managerId := some "q" }] } "q"
          = { contacts := [{ id := "p" }, { id := "r", managerId := some "p" }] } := by
  have hjs : jsOrNull t.managerId = t.managerId := jsOrNull_of_ne_empty hmgr
  have hmain : (AppTsx.deleteStakeholder a i).contacts
      = (a.contacts.filter (fun c => !(c.id == i))).map (fun c =>
          if c.managerId == some i then { c with managerId := t.managerId }
          else c) := by
    rw [AppTsx.deleteStakeholder, hfind]
    show (a.contacts.filter (fun c => !(c.id == i))).map (fun c =>
          if c.managerId == some i then { c with managerId := jsOrNull t.managerId }
          else c)
        = (a.contacts.filter (fun c => !(c.id == i))).map (fun c =>
          if c.managerId == some i then { c with managerId := t.managerId }
          else c)
    rw [hjs]
  refine ⟨hmain, ?_, by decide⟩
  intro c hcmem
  rw [hmain] at hcmem
  rcases List.mem_map.1 hcmem with ⟨c0, hc0, rfl⟩
  have hfilt := (List.mem_filter.1 hc0).2
  have hne : c0.id ≠ i := by
    intro hid
    rw [hid] at hfilt
    simp at hfilt
  split
  · exact hne
  · exact hne

/-- Witness for `delete_bridges`: the p/q/r bridging scenario, with the
target's record located concretely. -/
theorem delete_bridges_witness :
    (AppTsx.deleteStakeholder
        { contacts := [{ id := "p" }, { id := "q", managerId := some "p" },
                       { id := "r", managerId := some "q" }] } "q").contacts
      = (([{ id := "p" }, { id := "q", managerId := some "p" },
           { id := "r", managerId := some "q" }] : List OrgNode).filter
            (fun c => !(c.id == "q"))).map (fun c =>
          if c.managerId == some "q" then { c with managerId := some "p" }
          else c) :=
  (delete_bridges
    { contacts := [{ id := "p" }, { id := "q", managerId := some "p" },
                   { id := "r", managerId := some "q" }] }
    "q" { id := "q", managerId := some "p" } (by decide) (by decide)).1

/-- C8 counterexample: the second `runAnalysis` revision (`src/App.tsx` lines
295-313) has no zero-contact check — an extraction result with zero contacts
surfaces no error and replaces the previously displayed Analysis. -/
theorem runAnalysisV2_replaces_on_empty :
    AppTsx.runAnalysisV2
        (some { accountName := "Prev", contacts := [{ id := "p" }] })
        (Except.ok { accountName := "Empty", contacts := [] })
      = (some { accountName := "Empty", contacts := [] }, none)
    ∧ ({ accountName := "Empty", contacts := [] } : AccountAnalysis)
        ≠ { accountName := "Prev", contacts := [{ id := "p" }] } := by
  exact ⟨rfl, by decide⟩

/-- C8 (amended): the first `runAnalysis` revision (`src/App.tsx` lines 42-76)
surfaces the "No stakeholders identified" domain error on a zero-contact
extraction result and keeps the stored Analysis (so no new tree is built), and
it also keeps the stored Analysis on a collaborator failure; the second
revision (lines 295-313) performs no zero-contact check and replaces the
stored Analysis with the empty result, surfacing no error. -/
theorem runAnalysis_zero_contacts (prev : Option AccountAnalysis)
    (r : AccountAnalysis) (e : String) :
    (r.contacts = [] →
        AppTsx.runAnalysisV1 prev (Except.ok r)
          = (prev, some AppTsx.noStakeholdersMsg))
    ∧ AppTsx.runAnalysisV1 prev (Except.error e) = (prev, some e)
    ∧ AppTsx.runAnalysisV2 prev (Except.ok r) = (some r, none) := by
  refine ⟨?_, rfl, rfl⟩
  intro h
  rw [AppTsx.runAnalysisV1]
  rw [if_pos (by rw [h]; rfl)]

/-- Witness for `runAnalysis_zero_contacts` at a concrete prior Analysis and a
concrete empty extraction result. -/
theorem runAnalysis_zero_contacts_witness :
    AppTsx.runAnalysisV1 (some { accountName := "Prev", contacts := [{ id := "p" }] })
        (Except.ok { accountName := "Empty", contacts := [] })
      = (some { accountName := "Prev", contacts := [{ id := "p" }] },
          some AppTsx.noStakeholdersMsg) :=
  (runAnalysis_zero_contacts
    (some { accountName := "Prev", contacts := [{ id := "p" }] })
    { accountName := "Empty", contacts := [] } "unused").1 rfl

/-- C1 counterexample: in `src/components/OrgChart.tsx` (lines 60-66) a contact
whose `managerId` equals its own id — an id that is in the valid-id set — keeps
that `managerId` in the working set, instead of being redirected to the
synthetic root as the claim states (the pushed root is the second node, with
`managerId` null). -/
theorem selfLoop_kept_in_components :
    (OrgChartTsx.forestData "Acme" [{ id := "a", managerId := some "a" }]).map
        (fun c => c.managerId)
      = [some "a", none]
    ∧ "a" ≠ OrgChartTsx.VIRTUAL_ROOT_ID := by
  exact ⟨by decide, by decide⟩

/-- C1 (amended): both Reference Sanitizer revisions resolve a null/absent
`managerId`, an empty-string `managerId` (JS-falsy, treated as absent) and a
dangling `managerId` to the synthetic-root id, and keep a valid, distinct,
non-empty `managerId` unchanged; the `src/unnamed/part_000` revision also
resolves a self-referencing `managerId` to the synthetic-root id, but the
`src/components/OrgChart.tsx` revision has no self-loop rule and keeps a
self-referencing `managerId` unchanged whenever the contact's id is a valid,
non-empty id.  Both resolutions are total Lean functions, so they never
fail. -/
theorem referenceSanitizer_cases (now : Nat) (ids : List String) (c : OrgNode) :
    (c.managerId = none →
        Part000.resolveManager now ids c = Part000.virtualRootId now
        ∧ OrgChartTsx.resolveManager ids c = OrgChartTsx.VIRTUAL_ROOT_ID)
    ∧ (c.managerId = some "" →
        Part000.resolveManager now ids c = Part000.virtualRootId now
        ∧ OrgChartTsx.resolveManager ids c = OrgChartTsx.VIRTUAL_ROOT_ID)
    ∧ (c.managerId = some c.id →
        Part000.resolveManager now ids c = Part000.virtualRootId now)
    ∧ (∀ m, c.managerId = some m → m ∉ ids →
        Part000.resolveManager now ids c = Part000.virtualRootId now
        ∧ OrgChartTsx.resolveManager ids c = OrgChartTsx.VIRTUAL_ROOT_ID)
    ∧ (∀ m, c.managerId = some m → m ≠ "" → m ∈ ids → m ≠ c.id →
        Part000.resolveManager now ids c = m
        ∧ OrgChartTsx.resolveManager ids c = m)
    ∧ (c.managerId = some c.id → c.id ≠ "" → c.id ∈ ids →
        OrgChartTsx.resolveManager ids c = c.id) := by
  refine ⟨?_, ?_, ?_, ?_, ?_, ?_⟩
  · intro h
    constructor
    · rw [Part000.resolveManager, h]
    · rw [OrgChartTsx.resolveManager, h]
  · intro h
    constructor
    · rw [Part000.resolveManager, h]
      simp
    · rw [OrgChartTsx.resolveManager, h]
      simp
  · intro h
    rw [Part000.resolveManager, h]
    simp
  · intro m hm hmem
    constructor
    · rw [Part000.resolveManager, hm]
      simp [hmem]
    · rw [OrgChartTsx.resolveManager, hm]
      simp [hmem]
  · intro m hm hne hmem hself
    constructor
    · rw [Part000.resolveManager, hm]
      simp [hne, hmem, hself]
    · rw [OrgChartTsx.resolveManager, hm]
      simp [hne, hmem]
  · intro hm hne hmem
    rw [OrgChartTsx.resolveManager, hm]
    simp [hne, hmem]

/-- Witness for `referenceSanitizer_cases`: a valid, distinct manager
reference is kept unchanged by both sanitizer revisions. -/
theorem referenceSanitizer_cases_witness :
    Part000.resolveManager 7 ["a", "b"] { id := "a", managerId := some "b" } = "b"
    ∧ OrgChartTsx.resolveManager ["a", "b"] { id := "a", managerId := some "b" } = "b" :=
  (referenceSanitizer_cases 7 ["a", "b"] { id := "a", managerId := some "b" }).2.2.2.2.1
    "b" rfl (by decide) (by decide) (by decide)

/-- C3 counterexample: `src/components/OrgChart.tsx` performs no duplicate-id
removal — with two contacts sharing id "dup", the working set handed to tree
construction contains two nodes with the same id. -/
theorem duplicates_enter_tree_build :
    ¬ (((OrgChartTsx.forestData "Acme"
          [{ id := "dup", name := "first" }, { id := "dup", name := "second" }]).map
            (fun c => c.id)).Nodup) := by
  decide

/-- C3 (amended): the Identity Validator exists only in the
`src/unnamed/part_000` revision, where it behaves exactly as claimed: duplicate
ids are removed keeping the first occurrence in input order (the output is a
sublist of the input with duplicate-free ids covering all input ids, and
looking any id up in the output finds the same record as in the input), with no
error raised; in the `src/components/OrgChart.tsx` revision no deduplication
happens — the working set handed to tree construction carries every input id,
duplicates included, plus the virtual root. -/
theorem identityValidator_dedup (cs : List OrgNode) (acct : String) :
    ((Part000.sanitizedContacts cs).map (fun c => c.id)).Nodup
    ∧ (Part000.sanitizedContacts cs).Sublist cs
    ∧ (∀ x ∈ cs.map (fun c => c.id),
        x ∈ (Part000.sanitizedContacts cs).map (fun c => c.id))
    ∧ (∀ x : String, (Part000.sanitizedContacts cs).find? (fun c => c.id == x)
        = cs.find? (fun c => c.id == x))
    ∧ (OrgChartTsx.forestData acct cs).map (fun c => c.id)
        = cs.map (fun c => c.id) ++ [OrgChartTsx.VIRTUAL_ROOT_ID] := by
  refine ⟨sanitizedContacts_ids_nodup cs, sanitizedContacts_sublist cs, ?_, ?_, ?_⟩
  · intro x hx
    rcases dedupById_mem_ids cs [] x hx with h | h
    · cases h
    · exact h
  · intro x
    exact dedupById_find? cs [] x (List.not_mem_nil x)
  · rw [OrgChartTsx.forestData, List.map_append, List.map_map]
    rfl

/-- Witness for `identityValidator_dedup`: the "dup" scenario — the second
record with a duplicated id is dropped, the first kept. -/
theorem identityValidator_dedup_witness :
    ∀ x ∈ ([{ id := "dup", name := "first" }, { id := "dup", name := "second" },
            { id := "z" }] : List OrgNode).map (fun c => c.id),
      x ∈ (Part000.sanitizedContacts
            [{ id := "dup", name := "first" }, { id := "dup", name := "second" },
             { id := "z" }]).map (fun c => c.id) :=
  (identityValidator_dedup
    [{ id := "dup", name := "first" }, { id := "dup", name := "second" },
     { id := "z" }] "Acme").2.2.1

/-- C4 counterexample: the synthetic-root identifier of
`src/components/OrgChart.tsx` is the fixed string "__ORG_ROOT__"; a real
contact carrying exactly that id collides with the synthetic root inside the
working set (two nodes with the same id). -/
theorem root_id_collision :
    ({ id := "__ORG_ROOT__" } : OrgNode).id = OrgChartTsx.VIRTUAL_ROOT_ID
    ∧ ¬ (((OrgChartTsx.forestData "Acme" [{ id := "__ORG_ROOT__" }]).map
          (fun c => c.id)).Nodup) := by
  exact ⟨rfl, by decide⟩

/-- C4 (amended): the synthetic-root identifier is distinct from every real
contact id only on inputs in which no contact carries the sentinel id itself
("__ORG_ROOT__" in `src/components/OrgChart.tsx`, "__ROOT_<now>__" in
`src/unnamed/part_000` for the build timestamp `now`) — it is not guaranteed
distinct for arbitrary inputs; the second half of the claim holds: the root is
pushed only onto the ephemeral working copy, and the only mutation of the
Analysis' contact collection (`deleteStakeholder`) never introduces any new id,
so the synthetic root is never written back. -/
theorem syntheticRoot_freshness (cs : List OrgNode) (now : Nat)
    (a : AccountAnalysis) (i : String) :
    ((OrgChartTsx.VIRTUAL_ROOT_ID ∉ cs.map (fun c => c.id)) →
        ∀ c ∈ cs, c.id ≠ OrgChartTsx.VIRTUAL_ROOT_ID)
    ∧ ((Part000.virtualRootId now ∉ cs.map (fun c => c.id)) →
        ∀ c ∈ Part000.sanitizedContacts cs, c.id ≠ Part000.virtualRootId now)
    ∧ (∀ x ∈ (AppTsx.deleteStakeholder a i).contacts.map (fun c => c.id),
        x ∈ a.contacts.map (fun c => c.id)) := by
  refine ⟨?_, ?_, ?_⟩
  · intro h c hc hid
    exact h (List.mem_map.2 ⟨c, hc, hid⟩)
  · intro h c hc hid
    exact h (List.mem_map.2 ⟨c, List.Sublist.mem hc (sanitizedContacts_sublist cs), hid⟩)
  · intro x hx
    rw [AppTsx.deleteStakeholder] at hx
    cases hfind : a.contacts.find? (fun c => c.id == i) with
    | none =>
      rw [hfind] at hx
      exact hx
    | some t =>
      rw [hfind] at hx
      rw [List.map_map] at hx
      rcases List.mem_map.1 hx with ⟨c0, hc0, hcid⟩
      have hc0mem : c0 ∈ a.contacts := (List.mem_filter.1 hc0).1
      refine List.mem_map.2 ⟨c0, hc0mem, ?_⟩
      rw [← hcid]
      show c0.id = (if c0.managerId == some i
          then { c0 with managerId := jsOrNull t.managerId } else c0).id
      split
      · rfl
      · rfl

/-- Witness for `syntheticRoot_freshness`: on a contact list free of the
sentinel ids, both roots are fresh, and a concrete delete introduces no id. -/
theorem syntheticRoot_freshness_witness :
    ∀ c ∈ ([{ id := "a" }, { id := "b", managerId := some "a" }] : List OrgNode),
      c.id ≠ OrgChartTsx.VIRTUAL_ROOT_ID :=
  (syntheticRoot_freshness [{ id := "a" }, { id := "b", managerId := some "a" }]
    0 { contacts := [] } "a").1 (by decide)

/-- C7: in the built tree, every node's children are ordered ascending by
`seniorityRank` with ties broken by input order, and the a/b/c example yields
a's children as `[c, b]` under the root-attached a.  The comparator is
`(a.data.seniorityRank || 10) - (b.data.seniorityRank || 10)`
(`src/components/OrgChart.tsx` line 84 / `src/unnamed/part_000` line 81) under
JS's stable `Array.prototype.sort`; the hypothesis that every child of `p` has
rank at least 1 reflects the data model (ranks 1-10 for real contacts, 0
reserved for the synthetic root, which is never a child) and rules out the
JS-falsy rank 0, which the comparator coerces to 10. -/
theorem sibling_order (forest : List OrgNode) (p : String)
    (h : ∀ c ∈ forest, c.managerId = some p → 1 ≤ c.seniorityRank) :
    (childrenOf forest p).Pairwise
        (fun a b => a.seniorityRank ≤ b.seniorityRank)
    ∧ (∀ r : Int, (childrenOf forest p).filter (fun c => c.seniorityRank == r)
        = (forest.filter (fun c => c.managerId == some p)).filter
            (fun c => c.seniorityRank == r))
    ∧ childrenOf
          (OrgChartTsx.forestData "Acme"
            [{ id := "a", seniorityRank := 1 },
             { id := "b", managerId := some "a", seniorityRank := 3 },
             { id := "c", managerId := some "a", seniorityRank := 2 }]) "a"
        = [{ id := "c", managerId := some "a", seniorityRank := 2 },
           { id := "b", managerId := some "a", seniorityRank := 3 }]
    ∧ childrenOf
          (OrgChartTsx.forestData "Acme"
            [{ id := "a", seniorityRank := 1 },
             { id := "b", managerId := some "a", seniorityRank := 3 },
             { id := "c", managerId := some "a", seniorityRank := 2 }])
          OrgChartTsx.VIRTUAL_ROOT_ID
        = [{ id := "a", managerId := some OrgChartTsx.VIRTUAL_ROOT_ID,
             seniorityRank := 1 }] := by
  have hmemrank : ∀ c ∈ childrenOf forest p, 1 ≤ c.seniorityRank := by
    intro c hc
    have hc2 := mem_sortByRank.1 hc
    have hc3 := List.mem_filter.1 hc2
    exact h c hc3.1 (by simpa using hc3.2)
  refine ⟨?_, ?_, by decide, by decide⟩
  · refine List.Pairwise.imp_of_mem ?_ (pairwise_sortByRank _)
    intro a b ha hb hr
    have h1 : jsRank a.seniorityRank = a.seniorityRank :=
      jsRank_of_pos (hmemrank a ha)
    have h2 : jsRank b.seniorityRank = b.seniorityRank :=
      jsRank_of_pos (hmemrank b hb)
    have hr2 : jsRank a.seniorityRank ≤ jsRank b.seniorityRank := hr
    rw [h1, h2] at hr2
    exact hr2
  · intro r
    have hbase : ∀ c ∈ forest.filter (fun c => c.managerId == some p),
        1 ≤ c.seniorityRank := by
      intro c hc
      have hc3 := List.mem_filter.1 hc
      exact h c hc3.1 (by simpa using hc3.2)
    have e1 : (childrenOf forest p).filter (fun c => c.seniorityRank == r)
        = (childrenOf forest p).filter (fun c => jsRank c.seniorityRank == r) := by
      refine List.filter_congr ?_
      intro c hc
      rw [jsRank_of_pos (hmemrank c hc)]
    have e2 : (forest.filter (fun c => c.managerId == some p)).filter
          (fun c => c.seniorityRank == r)
        = (forest.filter (fun c => c.managerId == some p)).filter
          (fun c => jsRank c.seniorityRank == r) := by
      refine List.filter_congr ?_
      intro c hc
      rw [jsRank_of_pos (hbase c hc)]
    rw [e1, e2]
    exact filter_sortByRank r _

/-- Witness for `sibling_order`: the a/b/c scenario's sibling list is sorted
ascending by rank. -/
theorem sibling_order_witness :
    (childrenOf
        (OrgChartTsx.forestData "Acme"
          [{ id := "a", seniorityRank := 1 },
           { id := "b", managerId := some "a", seniorityRank := 3 },
           { id := "c", managerId := some "a", seniorityRank := 2 }]) "a").Pairwise
      (fun a b => a.seniorityRank ≤ b.seniorityRank) :=
  (sibling_order
    (OrgChartTsx.forestData "Acme"
      [{ id := "a", seniorityRank := 1 },
       { id := "b", managerId := some "a", seniorityRank := 3 },
       { id := "c", managerId := some "a", seniorityRank := 2 }]) "a"
    (by decide)).1

/-- C9: with a department filter `f` set (a non-empty string — the UI maps an
empty selection to `null`), both org-chart revisions restrict the working set
to contacts whose `department` equals `f` by case-sensitive exact match, before
sanitization; consequently a manager reference all of whose bearers lie outside
the filtered department is dangling in the filtered valid-id set and resolves
to the synthetic root in both sanitizer revisions.  The working set is built
from a copy (`[...data.contacts]` followed by non-mutating `filter`/`map`),
modelled here by the functions being pure. -/
theorem department_filter (cs : List OrgNode) (f : String) (hf : f ≠ "")
    (now : Nat) :
    applyFilter (some f) cs = cs.filter (fun c => c.department == some f)
    ∧ (∀ c ∈ cs.filter (fun c => c.department == some f), c.department = some f)
    ∧ (∀ c ∈ cs, c.department = some f →
        c ∈ cs.filter (fun c => c.department == some f))
    ∧ (∀ c ∈ cs.filter (fun c => c.department == some f), ∀ m,
        c.managerId = some m →
        (∀ d ∈ cs, d.id = m → d.department ≠ some f) →
        Part000.resolveManager now
            (Part000.validIds (cs.filter (fun c => c.department == some f))) c
          = Part000.virtualRootId now
        ∧ OrgChartTsx.resolveManager
            ((cs.filter (fun c => c.department == some f)).map (fun d => d.id)) c
          = OrgChartTsx.VIRTUAL_ROOT_ID) := by
  refine ⟨?_, ?_, ?_, ?_⟩
  · rw [applyFilter, if_pos]
    show (f ≠ "" : Bool) = true
    simpa using hf
  · intro c hc
    simpa using (List.mem_filter.1 hc).2
  · intro c hc hdept
    exact List.mem_filter.2 ⟨hc, by simpa using hdept⟩
  · intro c hc m hm hout
    have hnm : m ∉ (cs.filter (fun c => c.department == some f)).map
        (fun d => d.id) := by
      intro hmem
      rcases List.mem_map.1 hmem with ⟨d, hd, hdid⟩
      have hd2 := List.mem_filter.1 hd
      exact hout d hd2.1 hdid (by simpa using hd2.2)
    have hnv : m ∉ Part000.validIds (cs.filter (fun c => c.department == some f)) := by
      intro hmem
      exact hnm ((mem_validIds _ m).1 hmem)
    constructor
    · rw [Part000.resolveManager, hm]
      simp [hnv]
    · rw [OrgChartTsx.resolveManager, hm]
      simp [hnm]

/-- Witness for `department_filter`: a cross-department manager reference
resolves to the synthetic root in the filtered view. -/
theorem department_filter_witness :
    Part000.resolveManager 0
        (Part000.validIds
          (([{ id := "x", department := some "Eng", managerId := some "y" },
             { id := "y", department := some "Sales" }] : List OrgNode).filter
            (fun c => c.department == some "Eng")))
        { id := "x", department := some "Eng", managerId := some "y" }
      = Part000.virtualRootId 0 :=
  ((department_filter
      [{ id := "x", department := some "Eng", managerId := some "y" },
       { id := "y", department := some "Sales" }] "Eng" (by decide) 0).2.2.2
    { id := "x", department := some "Eng", managerId := some "y" } (by decide)
    "y" rfl (by decide)).1

theorem reachesRootIn_succ (forest : List OrgNode) (r : String) (k : Nat)
    (x : String) :
    reachesRootIn forest r (k + 1) x
      = (x == r ||
          match parentOf forest x with
          | some p => reachesRootIn forest r k p
          | none => false) := rfl

/-- C5 counterexample: the two-contact cycle a→b→a (both ids valid, neither a
direct self-loop) passes the extraction-boundary normalization unchanged and
survives both sanitizer revisions, so following resolved-parent links from "a"
does not reach the synthetic root within |contacts| = 2 steps — the claim's
"including multi-hop cycles such as A→B→A" fails on the code (as spec sections
4.2 and 9 themselves concede). -/
theorem cycle_survives_sanitization :
    GeminiService.normalizeContacts
        [{ id := "a", managerId := some "b" }, { id := "b", managerId := some "a" }]
      = [{ id := "a", managerId := some "b" }, { id := "b", managerId := some "a" }]
    ∧ reachesRootIn
        (OrgChartTsx.forestData "Acme"
          [{ id := "a", managerId := some "b" },
           { id := "b", managerId := some "a" }])
        OrgChartTsx.VIRTUAL_ROOT_ID 2 "a" = false
    ∧ reachesRootIn
        (Part000.forestData 0 "Acme"
          [{ id := "a", managerId := some "b" },
           { id := "b", managerId := some "a" }])
        (Part000.virtualRootId 0) 2 "a" = false := by
  refine ⟨by decide, by decide, by decide⟩

/-- C5 (amended): acyclicity holds exactly on inputs whose valid-manager
reference graph is acyclic: if the sanitized parent references of the
`src/unnamed/part_000` working set admit a ranking function `f` (every non-root
resolved parent strictly decreases `f`, and `f` is bounded by `|contacts|`) —
which is the standard witness that the reference graph has no multi-hop cycle —
then following resolved-parent links from any node of the working set reaches
the synthetic root in at most `|contacts|` steps.  Multi-hop cycles themselves
are not broken by any sanitizer revision (see the counterexample). -/
theorem acyclicity_of_ranked (cs : List OrgNode) (now : Nat) (acct : String)
    (f : String → Nat)
    (hdec : ∀ c ∈ Part000.sanitizedContacts cs,
        Part000.resolveManager now (Part000.validIds cs) c
            ≠ Part000.virtualRootId now →
        f (Part000.resolveManager now (Part000.validIds cs) c) < f c.id)
    (hbound : ∀ c ∈ Part000.sanitizedContacts cs, f c.id < cs.length) :
    ∀ x ∈ Part000.forestData now acct cs,
      reachesRootIn (Part000.forestData now acct cs)
        (Part000.virtualRootId now) cs.length x.id = true := by
  have hparent : ∀ c ∈ Part000.sanitizedContacts cs,
      parentOf (Part000.forestData now acct cs) c.id
        = some (Part000.resolveManager now (Part000.validIds cs) c) := by
    intro c hc
    have hfind := find?_map_of_nodup
      (fun c => { c with
        managerId := some (Part000.resolveManager now (Part000.validIds cs) c) })
      (fun c => rfl) (Part000.sanitizedContacts cs)
      (sanitizedContacts_ids_nodup cs) c hc
    rw [parentOf, Part000.forestData, List.find?_append, hfind]
    rfl
  have hres : ∀ c : OrgNode,
      Part000.resolveManager now (Part000.validIds cs) c
          ≠ Part000.virtualRootId now →
      Part000.resolveManager now (Part000.validIds cs) c
          ∈ Part000.validIds cs := by
    intro c hne
    cases hm : c.managerId with
    | none =>
      exfalso
      apply hne
      rw [Part000.resolveManager, hm]
    | some m =>
      have hval : Part000.resolveManager now (Part000.validIds cs) c
          = if (m ≠ "" && (Part000.validIds cs).contains m && m != c.id) = true
            then m else Part000.virtualRootId now := by
        rw [Part000.resolveManager, hm]
      rw [hval] at hne ⊢
      by_cases hcond :
          (m ≠ "" && (Part000.validIds cs).contains m && m != c.id) = true
      · rw [if_pos hcond]
        rw [Bool.and_eq_true, Bool.and_eq_true] at hcond
        simpa using hcond.1.2
      · rw [if_neg hcond] at hne
        exact absurd rfl hne
  have haux : ∀ N, ∀ c ∈ Part000.sanitizedContacts cs, f c.id ≤ N →
      reachesRootIn (Part000.forestData now acct cs)
        (Part000.virtualRootId now) (f c.id + 1) c.id = true := by
    intro N
    induction N with
    | zero =>
      intro c hc hle
      rw [reachesRootIn_succ]
      simp only [hparent c hc]
      by_cases hr : Part000.resolveManager now (Part000.validIds cs) c
          = Part000.virtualRootId now
      · rw [hr, reachesRootIn_root, Bool.or_true]
      · exfalso
        have := hdec c hc hr
        omega
    | succ N ih =>
      intro c hc hle
      rw [reachesRootIn_succ]
      simp only [hparent c hc]
      by_cases hr : Part000.resolveManager now (Part000.validIds cs) c
          = Part000.virtualRootId now
      · rw [hr, reachesRootIn_root, Bool.or_true]
      · have hlt := hdec c hc hr
        have hmemv := hres c hr
        rcases List.mem_map.1 hmemv with ⟨c2, hc2, hc2id⟩
        have hreach2 := ih c2 hc2 (by rw [← hc2id] at hlt; omega)
        have hle2 : f c2.id + 1 ≤ f c.id := by
          rw [hc2id]
          omega
        have hfin := reachesRootIn_le _ _ hle2 c2.id hreach2
        rw [hc2id] at hfin
        rw [hfin, Bool.or_true]
  intro x hx
  rw [Part000.forestData] at hx
  rcases List.mem_append.1 hx with hx | hx
  · rcases List.mem_map.1 hx with ⟨c, hc, rfl⟩
    have h1 := haux (f c.id) c hc (le_refl _)
    have h2 : f c.id + 1 ≤ cs.length := by
      have := hbound c hc
      omega
    exact reachesRootIn_le _ _ h2 c.id h1
  · rw [List.mem_singleton] at hx
    subst hx
    exact reachesRootIn_root _ _ _

/-- Witness for `acyclicity_of_ranked`: a single root-attached contact reaches
the synthetic root in one step, with the constant-zero ranking function. -/
theorem acyclicity_of_ranked_witness :
    reachesRootIn (Part000.forestData 0 "Acme" [{ id := "a" }])
        (Part000.virtualRootId 0) 1
        ({ id := "a", managerId := some (Part000.virtualRootId 0) } : OrgNode).id
      = true :=
  acyclicity_of_ranked [{ id := "a" }] 0 "Acme" (fun _ => 0)
    (by decide) (by decide)
    { id := "a", managerId := some (Part000.virtualRootId 0) } (by decide)

end AccountMapper
